import Mathlib

/-!
Verification development for the rooch scenario-driven CLI integration-test
harness described in `spec.md`, together with the dashboard ACL component
`CanViewNavSectionTitle.tsx`.  The harness engine itself (Feature Parser,
Template/Path Resolver, Result Store, Symbol Table, Command Executor,
Assertion Evaluator, Scenario Runner) is not part of the source slice, so its
operations are modelled from the spec; the React component is embedded
directly from its source.
-/

set_option autoImplicit false

namespace Harness

/-- Modelled from the spec (§9): captured command results are represented as a
tagged-union JSON-like value: null / boolean / number / string / array /
object. -/
inductive Value where
  | vnull
  | vbool (b : Bool)
  | vnum (n : Int)
  | vstr (s : String)
  | varr (elems : List Value)
  | vobj (fields : List (String × Value))
deriving Repr

/-- Modelled from the spec (§3): a Result Store entry is either structured
(parsed JSON) or a raw unparsed string. -/
inductive Entry where
  | parsed (v : Value)
  | raw (s : String)
deriving Repr

/-- Modelled from the spec (§7): the error kinds of the harness.  Only
`parseError` is run-fatal; it carries the line number it is reported with. -/
inductive HarnessError where
  | parseError (line : Nat)
  | undefinedVariable (name : String)
  | pathResolution
  | execution
  | assertionFailure
  | timeout
deriving Repr, DecidableEq

/-- Modelled from the spec (§3): the Result Store is a mapping from category
name to an ordered, append-only sequence of entries. -/
def ResultStore := List (String × List Entry)

/-- Look up a category's sequence; a category never written to has no
entries. -/
def ResultStore.find : ResultStore → String → List Entry
  | [], _ => []
  | (c, es) :: rest, cat => if c = cat then es else ResultStore.find rest cat

/-- Append one entry at the end of a category's sequence (creating the
category on first use). -/
def ResultStore.append : ResultStore → String → Entry → ResultStore
  | [], cat, e => [(cat, [e])]
  | (c, es) :: rest, cat, e =>
      if c = cat then (c, es ++ [e]) :: rest
      else (c, es) :: ResultStore.append rest cat e

/-- Modelled from the spec (§3): bracketed integers select elements of a
sequence; negative indices count from the end (`-1` = most recent). -/
def signedIndex {α : Type} (xs : List α) (i : Int) : Option α :=
  if i < 0 then
    if (xs.length : Int) + i < 0 then none else xs[((xs.length : Int) + i).toNat]?
  else xs[i.toNat]?

/-- Select one entry of a category sequence by (possibly negative) index;
an out-of-range index is a PathResolution error. -/
def resolveIndex (es : List Entry) (i : Int) : Except HarnessError Entry :=
  match signedIndex es i with
  | some e => Except.ok e
  | none => Except.error HarnessError.pathResolution

/-- Navigate one bracketed index inside a structured value: only arrays
support element selection. -/
def navIdx (v : Value) (i : Int) : Except HarnessError Value :=
  match v with
  | Value.varr xs =>
      match signedIndex xs i with
      | some w => Except.ok w
      | none => Except.error HarnessError.pathResolution
  | _ => Except.error HarnessError.pathResolution

/-- Look up a named field in an object's field list. -/
def lookupField : List (String × Value) → String → Option Value
  | [], _ => none
  | (k, v) :: rest, f => if k = f then some v else lookupField rest f

/-- Navigate one dotted field inside a structured value: only objects have
named fields; a missing field is a PathResolution error. -/
def navField (v : Value) (f : String) : Except HarnessError Value :=
  match v with
  | Value.vobj fs =>
      match lookupField fs f with
      | some w => Except.ok w
      | none => Except.error HarnessError.pathResolution
  | _ => Except.error HarnessError.pathResolution

/-- Fold a list of bracketed indices over a value. -/
def navIdxs (v : Value) : List Int → Except HarnessError Value
  | [] => Except.ok v
  | i :: rest =>
      match navIdx v i with
      | Except.ok w => navIdxs w rest
      | Except.error e => Except.error e

/-- Fold a list of dotted fields over a value. -/
def navFields (v : Value) : List String → Except HarnessError Value
  | [] => Except.ok v
  | f :: rest =>
      match navField v f with
      | Except.ok w => navFields w rest
      | Except.error e => Except.error e

/-- Modelled from the spec (§3, §4.2): resolve a path expression
`$.category[i0][i1]...field1.field2` against the Result Store.  The category
selects a sequence, the first index selects an entry of it (evaluated against
the sequence's current length), later indices and fields navigate inside the
selected structured value.  Resolution fails (PathResolution) if the category
has no entries, an index is out of range, a field is absent, or navigation is
attempted into a raw (unparsed) string. -/
def resolvePathParts (rs : ResultStore) (cat : String) (idxs : List Int)
    (fields : List String) : Except HarnessError Entry :=
  match idxs with
  | [] => Except.error HarnessError.pathResolution
  | i0 :: restIdx =>
      match resolveIndex (rs.find cat) i0 with
      | Except.error e => Except.error e
      | Except.ok e =>
          if restIdx = [] ∧ fields = [] then Except.ok e
          else
            match e with
            | Entry.raw _ => Except.error HarnessError.pathResolution
            | Entry.parsed v =>
                match navIdxs v restIdx with
                | Except.error e' => Except.error e'
                | Except.ok v1 =>
                    match navFields v1 fields with
                    | Except.error e' => Except.error e'
                    | Except.ok v2 => Except.ok (Entry.parsed v2)

theorem signedIndex_last {α : Type} (xs : List α) (h : 1 ≤ xs.length) :
    signedIndex xs (-1) = signedIndex xs ((xs.length : Int) - 1) := by
  unfold signedIndex
  have h0 : ((-1 : Int) < 0) := by omega
  have h1 : ¬ ((xs.length : Int) + -1 < 0) := by omega
  have h2 : ¬ ((xs.length : Int) - 1 < 0) := by omega
  have h3 : (xs.length : Int) + -1 = (xs.length : Int) - 1 := by omega
  simp only [if_pos h0, if_neg h1, if_neg h2, h3]

theorem signedIndex_under {α : Type} (xs : List α) :
    signedIndex xs (-((xs.length : Int) + 1)) = none := by
  unfold signedIndex
  have h0 : (-((xs.length : Int) + 1) < 0) := by omega
  have h1 : ((xs.length : Int) + -((xs.length : Int) + 1) < 0) := by omega
  simp only [if_pos h0, if_pos h1]

theorem resolvePathParts_single (rs : ResultStore) (cat : String) (i : Int) :
    resolvePathParts rs cat [i] [] = resolveIndex (rs.find cat) i := by
  unfold resolvePathParts
  cases h : resolveIndex (rs.find cat) i <;> simp [h]

/-- C1: for a category holding N ≥ 1 entries, the path `$.cat[-1]` resolves to
the same value as `$.cat[N-1]`; and with N ≥ 0 entries, `$.cat[-(N+1)]` fails
with a PathResolution error.  Negative indices are evaluated against the
store passed in at resolution time, i.e. lazily at assertion time. -/
theorem negative_index_resolution (rs : ResultStore) (cat : String) :
    (1 ≤ (rs.find cat).length →
      resolvePathParts rs cat [(-1 : Int)] [] =
        resolvePathParts rs cat [((rs.find cat).length : Int) - 1] []) ∧
    resolvePathParts rs cat [-(((rs.find cat).length : Int) + 1)] [] =
      Except.error HarnessError.pathResolution := by
  constructor
  · intro h
    rw [resolvePathParts_single, resolvePathParts_single]
    unfold resolveIndex
    rw [signedIndex_last _ h]
  · rw [resolvePathParts_single]
    unfold resolveIndex
    rw [signedIndex_under]

/-- Witness for `negative_index_resolution` at a one-entry store. -/
theorem negative_index_resolution_witness :
    1 ≤ (ResultStore.find [("move", [Entry.raw "x"])] "move").length ∧
    resolvePathParts [("move", [Entry.raw "x"])] "move" [(-1 : Int)] [] =
      resolvePathParts [("move", [Entry.raw "x"])] "move"
        [((ResultStore.find [("move", [Entry.raw "x"])] "move").length : Int) - 1] [] :=
  ⟨by decide, (negative_index_resolution [("move", [Entry.raw "x"])] "move").1 (by decide)⟩

/-- Modelled from the spec (§3): the Symbol Table is a mapping from name to
string value, initialized empty at run start. -/
def SymbolTable := List (String × String)

/-- Look up a name in the Symbol Table (most recent binding wins). -/
def lookupSym : SymbolTable → String → Option String
  | [], _ => none
  | (k, v) :: rest, n => if k = n then some v else lookupSym rest n

/-- Bind a name to a value (shadowing any earlier binding). -/
def insertSym (syms : SymbolTable) (n v : String) : SymbolTable :=
  (n, v) :: syms

/-- Modelled from the spec (§4.2): `{name}` is looked up in the Symbol Table;
an unresolved name is an UndefinedVariable error — never a default or null
value. -/
def resolveVar (syms : SymbolTable) (n : String) : Except HarnessError String :=
  match lookupSym syms n with
  | some v => Except.ok v
  | none => Except.error (HarnessError.undefinedVariable n)

/-- Apply the symbol side effects of a command, in order. -/
def applyDefines (syms : SymbolTable) (defs : List (String × String)) : SymbolTable :=
  defs.foldl (fun s p => insertSym s p.1 p.2) syms

/-- Modelled from the spec (§4.1): extract a quoted payload by quote balance:
the payload is everything strictly between the first and the last double
quote of the text, so literal double quotes embedded inside the payload are
preserved rather than cut at the first closing quote. -/
def extractQuoted (cs : List Char) : Option (List Char) :=
  match cs.dropWhile (fun c => c ≠ '"') with
  | [] => none
  | _ :: rest =>
      match rest.reverse.dropWhile (fun c => c ≠ '"') with
      | [] => none
      | _ :: core => some core.reverse

/-- Modelled from the spec (§4.3): tokenize a resolved payload respecting
quote boundaries — a quoted multi-word argument remains a single token, with
the quotes themselves stripped. -/
def tokenizeAux : List Char → List Char → Bool → List (List Char)
  | [], cur, _ => if cur = [] then [] else [cur.reverse]
  | c :: cs, cur, inQ =>
      if c = '"' then tokenizeAux cs cur (!inQ)
      else if c = ' ' ∧ inQ = false then
        if cur = [] then tokenizeAux cs [] false
        else cur.reverse :: tokenizeAux cs [] false
      else tokenizeAux cs (c :: cur) inQ

/-- Tokenize a string payload. -/
def tokenize (s : String) : List String :=
  (tokenizeAux s.data [] false).map List.asString

/-- True when a token is a flag (starts with a dash). -/
def isFlag (t : String) : Bool :=
  match t.data with
  | '-' :: _ => true
  | _ => false

/-- Modelled from the spec (§4.3): the category key is the first non-flag
token of the command. -/
def categoryKey (toks : List String) : Option String :=
  toks.find? (fun t => !(isFlag t))

/-- Numeric value of a digit list, most significant first. -/
def digitsToNat (ds : List Char) : Nat :=
  ds.foldl (fun n c => n * 10 + (c.toNat - '0'.toNat)) 0

/-- Parse an optionally negated decimal integer from a full char list. -/
def parseIntChars (cs : List Char) : Option Int :=
  match cs with
  | '-' :: rest =>
      if rest ≠ [] ∧ rest.all Char.isDigit then some (-(digitsToNat rest : Int)) else none
  | _ =>
      if cs ≠ [] ∧ cs.all Char.isDigit then some ((digitsToNat cs : Int)) else none

/-- Drop leading JSON whitespace. -/
def skipWs (cs : List Char) : List Char :=
  cs.dropWhile (fun c => c = ' ' ∨ c = '\t' ∨ c = '\n' ∨ c = '\r')

mutual

/-- Modelled from the spec (§4.3, §9): fueled parser for JSON-like structured
stdout (null, booleans, integers, escape-free strings, arrays, objects). -/
def jsonVal : Nat → List Char → Option (Value × List Char)
  | 0, _ => none
  | fuel+1, cs =>
      match skipWs cs with
      | 'n' :: 'u' :: 'l' :: 'l' :: rest => some (Value.vnull, rest)
      | 't' :: 'r' :: 'u' :: 'e' :: rest => some (Value.vbool true, rest)
      | 'f' :: 'a' :: 'l' :: 's' :: 'e' :: rest => some (Value.vbool false, rest)
      | '"' :: rest =>
          (match rest.dropWhile (fun c => c ≠ '"') with
           | '"' :: rest2 =>
               some (Value.vstr (rest.takeWhile (fun c => c ≠ '"')).asString, rest2)
           | _ => none)
      | '[' :: rest =>
          (match skipWs rest with
           | ']' :: rest2 => some (Value.varr [], rest2)
           | _ =>
               match jsonElems fuel rest with
               | some (vs, rest2) => some (Value.varr vs, rest2)
               | none => none)
      | '\x7b' :: rest =>
          (match skipWs rest with
           | '\x7d' :: rest2 => some (Value.vobj [], rest2)
           | _ =>
               match jsonMembers fuel rest with
               | some (fs, rest2) => some (Value.vobj fs, rest2)
               | none => none)
      | '-' :: rest =>
          (match rest.takeWhile Char.isDigit with
           | [] => none
           | ds => some (Value.vnum (-(digitsToNat ds : Int)), rest.drop ds.length))
      | other =>
          (match other.takeWhile Char.isDigit with
           | [] => none
           | ds => some (Value.vnum (digitsToNat ds : Int), other.drop ds.length))

/-- Comma-separated JSON array elements up to the closing bracket. -/
def jsonElems : Nat → List Char → Option (List Value × List Char)
  | 0, _ => none
  | fuel+1, cs =>
      match jsonVal fuel cs with
      | none => none
      | some (v, rest) =>
          match skipWs rest with
          | ',' :: rest2 =>
              (match jsonElems fuel rest2 with
               | some (vs, rest3) => some (v :: vs, rest3)
               | none => none)
          | ']' :: rest2 => some ([v], rest2)
          | _ => none

/-- Comma-separated JSON object members up to the closing brace. -/
def jsonMembers : Nat → List Char → Option (List (String × Value) × List Char)
  | 0, _ => none
  | fuel+1, cs =>
      match skipWs cs with
      | '"' :: rest =>
          (match rest.dropWhile (fun c => c ≠ '"') with
           | '"' :: rest2 =>
               (match skipWs rest2 with
                | ':' :: rest3 =>
                    (match jsonVal fuel rest3 with
                     | none => none
                     | some (v, rest4) =>
                         let key := (rest.takeWhile (fun c => c ≠ '"')).asString
                         match skipWs rest4 with
                         | ',' :: rest5 =>
                             (match jsonMembers fuel rest5 with
                              | some (fs, rest6) => some ((key, v) :: fs, rest6)
                              | none => none)
                         | '\x7d' :: rest5 => some ([(key, v)], rest5)
                         | _ => none)
                | _ => none)
           | _ => none)
      | _ => none

end

/-- Modelled from the spec (§4.3): attempt to parse stdout as structured
JSON-like data; `none` means the output stays a raw string. -/
def parseStructured (s : String) : Option Value :=
  match jsonVal (2 * s.data.length + 2) s.data with
  | some (v, rest) => if skipWs rest = [] then some v else none
  | none => none

mutual

/-- Render a structured value back to text (used when a resolved path value
is substituted into a command payload). -/
def renderValue : Value → String
  | Value.vnull => "null"
  | Value.vbool true => "true"
  | Value.vbool false => "false"
  | Value.vnum n => toString n
  | Value.vstr s => s
  | Value.varr vs => "[" ++ renderList vs ++ "]"
  | Value.vobj fs => "\x7b" ++ renderFields fs ++ "\x7d"

/-- Render array elements, comma separated. -/
def renderList : List Value → String
  | [] => ""
  | [v] => renderValue v
  | v :: rest => renderValue v ++ "," ++ renderList rest

/-- Render object members, comma separated. -/
def renderFields : List (String × Value) → String
  | [] => ""
  | [(k, v)] => k ++ ":" ++ renderValue v
  | (k, v) :: rest => k ++ ":" ++ renderValue v ++ "," ++ renderFields rest

end

/-- Render a Result Store entry to text. -/
def renderEntry : Entry → String
  | Entry.parsed v => renderValue v
  | Entry.raw s => s

/-- Parse the bracketed index segments `[i1][i2]...` of a path expression. -/
def parseIdxsAux : Nat → List Char → Option (List Int × List Char)
  | 0, _ => none
  | fuel+1, cs =>
      match cs with
      | '[' :: rest =>
          (match rest.dropWhile (fun c => c ≠ ']') with
           | ']' :: rest2 =>
               (match parseIntChars (rest.takeWhile (fun c => c ≠ ']')) with
                | some i =>
                    (match parseIdxsAux fuel rest2 with
                     | some (is, rest3) => some (i :: is, rest3)
                     | none => none)
                | none => none)
           | _ => none)
      | _ => some ([], cs)

/-- Parse the dotted field segments `.f1.f2` of a path expression. -/
def parseFieldsAux : Nat → List Char → Option (List String)
  | 0, _ => none
  | fuel+1, cs =>
      match cs with
      | [] => some []
      | '.' :: rest =>
          (match rest.takeWhile (fun c => c ≠ '.') with
           | [] => none
           | f =>
               match parseFieldsAux fuel (rest.drop f.length) with
               | some fs => some (f.asString :: fs)
               | none => none)
      | _ => none

/-- Modelled from the spec (§3): parse a path expression
`$.category[i1][i2]...field1.field2` into category, indices and fields. -/
def parsePathExpr (cs : List Char) : Option (String × List Int × List String) :=
  match cs with
  | '$' :: '.' :: rest =>
      (match rest.takeWhile (fun c => c ≠ '[' ∧ c ≠ '.') with
       | [] => none
       | cat =>
           match parseIdxsAux (cs.length + 1) (rest.drop cat.length) with
           | some (idxs, rest2) =>
               (match parseFieldsAux (cs.length + 1) rest2 with
                | some fields => some (cat.asString, idxs, fields)
                | none => none)
           | none => none)
  | _ => none

/-- Resolve a textual path expression against the Result Store; malformed
path text is also a PathResolution failure. -/
def resolvePathText (rs : ResultStore) (cs : List Char) : Except HarnessError Entry :=
  match parsePathExpr cs with
  | some (cat, idxs, fields) => resolvePathParts rs cat idxs fields
  | none => Except.error HarnessError.pathResolution

/-- Split a char list at the first closing brace. -/
def splitAtClose : List Char → Option (List Char × List Char)
  | [] => none
  | c :: rest =>
      if c = '\x7d' then some ([], rest)
      else
        match splitAtClose rest with
        | some (a, b) => some (c :: a, b)
        | none => none

/-- Split a char list at the first double closing brace. -/
def splitAtCloseTwo : List Char → Option (List Char × List Char)
  | [] => none
  | c :: rest =>
      if c = '\x7d' ∧ rest.head? = some '\x7d' then some ([], rest.tail)
      else
        match splitAtCloseTwo rest with
        | some (a, b) => some (c :: a, b)
        | none => none

/-- Strip leading and trailing spaces from a char list. -/
def trimChars (cs : List Char) : List Char :=
  ((cs.dropWhile (fun c => c = ' ')).reverse.dropWhile (fun c => c = ' ')).reverse

/-- Modelled from the spec (§3, §4.5, §9): the mutable run context — Symbol
Table, Result Store and the background server handle — initialized empty at
run start and threaded through every step. -/
structure RunState where
  syms : SymbolTable
  store : ResultStore
  serverRunning : Bool

/-- The run context at run start: empty tables, no server. -/
def initState : RunState :=
  { syms := [], store := [], serverRunning := false }

/-- Modelled from the spec (§4.2): resolve both substitution forms inside a
payload — variable references between single braces via the Symbol Table and
path expressions between double braces via the Result Store — failing the
step on an undefined variable or unresolvable path.  Fueled by the input
length (each step consumes at least one character). -/
def resolveTemplateAux (st : RunState) : Nat → List Char → Except HarnessError (List Char)
  | 0, _ => Except.error HarnessError.pathResolution
  | _+1, [] => Except.ok []
  | fuel+1, c :: rest =>
      if c = '\x7b' ∧ rest.head? = some '\x7b' then
        match splitAtCloseTwo rest.tail with
        | some (inner, rest2) =>
            (match resolvePathText st.store (trimChars inner) with
             | Except.error e => Except.error e
             | Except.ok ent =>
                 match resolveTemplateAux st fuel rest2 with
                 | Except.error e => Except.error e
                 | Except.ok tl => Except.ok ((renderEntry ent).data ++ tl))
        | none => Except.error HarnessError.pathResolution
      else if c = '\x7b' then
        match splitAtClose rest with
        | some (nm, rest2) =>
            (match resolveVar st.syms nm.asString with
             | Except.error e => Except.error e
             | Except.ok v =>
                 match resolveTemplateAux st fuel rest2 with
                 | Except.error e => Except.error e
                 | Except.ok tl => Except.ok (v.data ++ tl))
        | none =>
            (match resolveTemplateAux st fuel rest with
             | Except.error e => Except.error e
             | Except.ok tl => Except.ok (c :: tl))
      else
        match resolveTemplateAux st fuel rest with
        | Except.error e => Except.error e
        | Except.ok tl => Except.ok (c :: tl)

/-- Resolve a whole payload string. -/
def resolveTemplate (st : RunState) (s : String) : Except HarnessError String :=
  match resolveTemplateAux st (s.data.length + 1) s.data with
  | Except.ok cs => Except.ok cs.asString
  | Except.error e => Except.error e

/-- Outcome of one external process invocation, as observed by the Executor:
whether the bounded wait expired, the exit code, captured stdout, and the
symbol bindings produced by the command's side effects. -/
structure ExecResult where
  timedOut : Bool
  exitCode : Nat
  stdout : String
  defines : List (String × String)

/-- The external world seen by one run: how each spawned argument vector
behaves, and whether the background server's readiness signal is observed
within the bounded readiness wait. -/
structure Env where
  exec : List String → ExecResult
  serverReady : Bool

/-- Modelled from the spec (§4.3): execute a `cmd` step — resolve the
payload, tokenize it, spawn the process; a timeout or nonzero exit fails the
step; on success parse stdout as structured data (raw string fallback) and
append exactly one entry under the category key (the first non-flag token),
then apply the command's symbol side effects. -/
def execCmd (env : Env) (st : RunState) (payload : String) : Except HarnessError RunState :=
  match resolveTemplate st payload with
  | Except.error e => Except.error e
  | Except.ok resolved =>
      let toks := tokenize resolved
      let r := env.exec toks
      if r.timedOut then Except.error HarnessError.timeout
      else if r.exitCode ≠ 0 then Except.error HarnessError.execution
      else
        match categoryKey toks with
        | none => Except.error HarnessError.execution
        | some cat =>
            let entry :=
              match parseStructured r.stdout with
              | some v => Entry.parsed v
              | none => Entry.raw r.stdout
            Except.ok { st with
              store := st.store.append cat entry
              syms := applyDefines st.syms r.defines }

/-- Comparison operators of the assertion grammar. -/
inductive CompareOp where
  | eq | ne | lt | gt
deriving Repr, DecidableEq

/-- Recognize an operator token. -/
def parseOp (t : String) : Option CompareOp :=
  if t = "==" then some CompareOp.eq
  else if t = "!=" then some CompareOp.ne
  else if t = "<" then some CompareOp.lt
  else if t = ">" then some CompareOp.gt
  else none

/-- Split a token list at the first operator token. -/
def splitAtOp : List String → Option (List String × CompareOp × List String)
  | [] => none
  | t :: rest =>
      match parseOp t with
      | some op => some ([], op, rest)
      | none =>
          match splitAtOp rest with
          | some (l, op, r) => some (t :: l, op, r)
          | none => none

/-- Join tokens with single spaces. -/
def joinSpace : List String → String
  | [] => ""
  | [t] => t
  | t :: rest => t ++ " " ++ joinSpace rest

/-- Modelled from the spec (§4.4): compare two sides — numerically when both
parse as numbers, as strings otherwise. -/
def compareValues (op : CompareOp) (l r : String) : Bool :=
  match parseIntChars l.data, parseIntChars r.data with
  | some a, some b =>
      (match op with
       | CompareOp.eq => a == b
       | CompareOp.ne => a != b
       | CompareOp.lt => decide (a < b)
       | CompareOp.gt => decide (b < a))
  | _, _ =>
      (match op with
       | CompareOp.eq => l == r
       | CompareOp.ne => l != r
       | CompareOp.lt => false
       | CompareOp.gt => false)

/-- Modelled from the spec (§4.4): evaluate a resolved assert payload of the
shape left-operator-right; quote-aware tokenization strips the quotes of a
quoted right literal. -/
def evalAssert (s : String) : Bool :=
  match splitAtOp (tokenize s) with
  | some (ltoks, op, rtoks) => compareValues op (joinSpace ltoks) (joinSpace rtoks)
  | none => false

/-- Step keyword. -/
inductive Keyword where
  | givenKw | thenKw
deriving Repr, DecidableEq

/-- Modelled from the spec (§3): a Step's executable directive — a command,
an assertion, or the distinguished background-server acquisition. -/
inductive Directive where
  | cmd (payload : String)
  | assert (payload : String)
  | server
deriving Repr, DecidableEq

/-- Modelled from the spec (§3): a Step. -/
structure Step where
  keyword : Keyword
  directive : Directive
deriving Repr, DecidableEq

/-- Modelled from the spec (§3): a Scenario — name and ordered steps. -/
structure Scenario where
  name : String
  steps : List Step
deriving Repr, DecidableEq

/-- Modelled from the spec (§3): a Feature — name and ordered scenarios,
immutable once parsed. -/
structure Feature where
  name : String
  scenarios : List Scenario
deriving Repr, DecidableEq

/-- Strip a literal head from a char list, when present. -/
def stripPre (pre cs : List Char) : Option (List Char) :=
  if pre.isPrefixOf cs then some (cs.drop pre.length) else none

/-- Parse the body of a step line (after the `Given`/`Then` keyword): the
distinguished server directive, or a `cmd:`/`assert:` directive with a
quote-balanced quoted payload. -/
def parseStepBody (kw : Keyword) (body : List Char) : Option Step :=
  if body = "the server".data then some ⟨kw, Directive.server⟩
  else
    match stripPre "cmd:".data body with
    | some rest =>
        (match extractQuoted rest with
         | some payload => some ⟨kw, Directive.cmd payload.asString⟩
         | none => none)
    | none =>
        match stripPre "assert:".data body with
        | some rest =>
            (match extractQuoted rest with
             | some payload => some ⟨kw, Directive.assert payload.asString⟩
             | none => none)
        | none => none

/-- The syntactic kind of one feature-file line. -/
inductive LineKind where
  | blank
  | comment
  | featureDecl (name : String)
  | scenarioDecl (name : String)
  | stepLine (s : Step)
  | invalid
deriving Repr, DecidableEq

/-- Modelled from the spec (§4.1): classify one line of feature text.  Blank
lines and comment lines carry no executable semantics; a Scenario needs a
non-empty name; any other non-matching line is invalid. -/
def classifyLine (l : String) : LineKind :=
  match trimChars l.data with
  | [] => LineKind.blank
  | '#' :: _ => LineKind.comment
  | cs =>
      match stripPre "Feature:".data cs with
      | some rest => LineKind.featureDecl (trimChars rest).asString
      | none =>
          match stripPre "Scenario:".data cs with
          | some rest =>
              (match trimChars rest with
               | [] => LineKind.invalid
               | nm => LineKind.scenarioDecl nm.asString)
          | none =>
              match stripPre "Given".data cs with
              | some rest =>
                  (match parseStepBody Keyword.givenKw (trimChars rest) with
                   | some s => LineKind.stepLine s
                   | none => LineKind.invalid)
              | none =>
                  match stripPre "Then".data cs with
                  | some rest =>
                      (match parseStepBody Keyword.thenKw (trimChars rest) with
                       | some s => LineKind.stepLine s
                       | none => LineKind.invalid)
                  | none => LineKind.invalid

/-- Intermediate state of the line fold: feature name seen so far, completed
scenarios, and the scenario currently being collected. -/
structure ParseState where
  featureName : Option String
  doneScens : List Scenario
  current : Option (String × List Step)

/-- Close the scenario currently being collected, if any. -/
def flushCurrent (ps : ParseState) : ParseState :=
  match ps.current with
  | none => ps
  | some (nm, steps) =>
      { ps with doneScens := ps.doneScens ++ [⟨nm, steps⟩], current := none }

/-- Modelled from the spec (§4.1): fold the classified lines, reporting the
line number of the first non-matching line (or of a step outside any
scenario) as a fatal parse error. -/
def parseLines (ps : ParseState) (lineno : Nat) : List String → Except HarnessError ParseState
  | [] => Except.ok ps
  | l :: rest =>
      match classifyLine l with
      | LineKind.blank => parseLines ps (lineno + 1) rest
      | LineKind.comment => parseLines ps (lineno + 1) rest
      | LineKind.featureDecl nm =>
          parseLines { ps with featureName := some nm } (lineno + 1) rest
      | LineKind.scenarioDecl nm =>
          parseLines { flushCurrent ps with current := some (nm, []) } (lineno + 1) rest
      | LineKind.stepLine s =>
          (match ps.current with
           | none => Except.error (HarnessError.parseError lineno)
           | some (nm, steps) =>
               parseLines { ps with current := some (nm, steps ++ [s]) } (lineno + 1) rest)
      | LineKind.invalid => Except.error (HarnessError.parseError lineno)

/-- Modelled from the spec (§4.1): parse a whole feature text (given as its
list of lines); a feature with zero scenarios is a fatal parse error. -/
def parseFeature (lines : List String) : Except HarnessError Feature :=
  match parseLines ⟨none, [], none⟩ 1 lines with
  | Except.error e => Except.error e
  | Except.ok ps =>
      match (flushCurrent ps).doneScens with
      | [] => Except.error (HarnessError.parseError (lines.length + 1))
      | scens => Except.ok ⟨(flushCurrent ps).featureName.getD "", scens⟩

/-- Modelled from the spec (§4.5): scenario outcome states. -/
inductive Status where
  | Pending | Running | Passed | Failed | Errored
deriving Repr, DecidableEq

/-- Modelled from the spec (§4.3, §4.4): execute one step.  The server step
succeeds (marking the server running) only when the readiness signal is
observed within the bounded wait, and times out otherwise; cmd and assert
steps resolve their payload first and fail on any resolution error. -/
def execStep (env : Env) (st : RunState) (s : Step) : Except HarnessError RunState :=
  match s.directive with
  | Directive.server =>
      if env.serverReady then Except.ok { st with serverRunning := true }
      else Except.error HarnessError.timeout
  | Directive.cmd p => execCmd env st p
  | Directive.assert p =>
      (match resolveTemplate st p with
       | Except.error e => Except.error e
       | Except.ok resolved =>
           if evalAssert resolved then Except.ok st
           else Except.error HarnessError.assertionFailure)

/-- Modelled from the spec (§4.5): execute a scenario's steps strictly in
order; the first failing step stops the scenario, skipping the remaining
steps. -/
def runSteps (env : Env) : RunState → List Step → RunState × Option HarnessError
  | st, [] => (st, none)
  | st, s :: rest =>
      match execStep env st s with
      | Except.ok st' => runSteps env st' rest
      | Except.error e => (st, some e)

/-- Release the scoped background-server resource. -/
def stopServer (st : RunState) : RunState :=
  { st with serverRunning := false }

/-- Modelled from the spec (§4.5, §4.3): run one scenario; any step failure
marks it Failed; on every exit path the background server is terminated
(scoped acquisition with guaranteed release). -/
def runScenario (env : Env) (st : RunState) (sc : Scenario) : RunState × Status :=
  match runSteps env st sc.steps with
  | (st', none) => (stopServer st', Status.Passed)
  | (st', some _) => (stopServer st', Status.Failed)

/-- Modelled from the spec (§4.5): run every scenario in order, threading the
run context (Symbol Table and Result Store persist across scenarios); a
failed scenario never stops the runner from proceeding to the next. -/
def runScenarios (env : Env) : RunState → List Scenario → RunState × List Status
  | st, [] => (st, [])
  | st, sc :: rest =>
      let r := runScenario env st sc
      let r2 := runScenarios env r.1 rest
      (r2.1, r.2 :: r2.2)

/-- Run a parsed feature from the empty initial context. -/
def runFeature (env : Env) (f : Feature) : List Status :=
  (runScenarios env initState f.scenarios).2

/-- All scenario outcomes are Passed. -/
def allPassed (sts : List Status) : Bool :=
  sts.all (fun s => s == Status.Passed)

/-- Modelled from the spec (§6): exit status zero iff all scenarios passed. -/
def exitCode (sts : List Status) : Nat :=
  if allPassed sts then 0 else 1

/-- Modelled from the spec (§4.5, §7): the whole run — only a ParseError
aborts it; otherwise every scenario is run and the exit code aggregates the
outcomes. -/
def runHarness (env : Env) (lines : List String) : Except HarnessError Nat :=
  match parseFeature lines with
  | Except.error e => Except.error e
  | Except.ok f => Except.ok (exitCode (runFeature env f))

theorem find_append (rs : ResultStore) (cat c : String) (e : Entry) :
    ResultStore.find (rs.append cat e) c =
      if c = cat then rs.find c ++ [e] else rs.find c := by
  induction rs with
  | nil =>
      by_cases h : c = cat
      · subst h; simp [ResultStore.append, ResultStore.find]
      · have h2 : ¬ (cat = c) := fun hh => h hh.symm
        simp [ResultStore.append, ResultStore.find, h, h2]
  | cons hd tl ih =>
      obtain ⟨k, es⟩ := hd
      by_cases hk : k = cat
      · subst hk
        by_cases hc : k = c
        · subst hc
          simp [ResultStore.append, ResultStore.find]
        · have h2 : ¬ (c = k) := fun hh => hc hh.symm
          simp [ResultStore.append, ResultStore.find, hc, h2]
      · by_cases hc : k = c
        · subst hc
          simp [ResultStore.append, ResultStore.find, hk, fun hh : k = cat => hk hh]
        · simp [ResultStore.append, ResultStore.find, hk, hc, ih]

theorem store_unchanged_prefix (rs : ResultStore) (c : String) :
    rs.find c <+: rs.find c :=
  List.prefix_refl _

/-- C2: every successfully executed cmd step whose category key is C appends
exactly one entry to C's sequence and leaves every other category untouched,
regardless of which sub-action was invoked (an entry is appended even when
stdout is empty or unparsable); and across any successful step, every
category's existing sequence is preserved as a prefix — entries are never
reordered or pruned. -/
theorem cmd_appends_exactly_one :
    (∀ (env : Env) (st : RunState) (p : String) (st' : RunState),
        execCmd env st p = Except.ok st' →
        ∃ C e, (∃ resolved, resolveTemplate st p = Except.ok resolved ∧
                  categoryKey (tokenize resolved) = some C) ∧
          ∀ cat, st'.store.find cat =
            if cat = C then st.store.find cat ++ [e] else st.store.find cat) ∧
    (∀ (env : Env) (st : RunState) (s : Step) (st' : RunState),
        execStep env st s = Except.ok st' →
        ∀ cat, st.store.find cat <+: st'.store.find cat) := by
  have hcmd : ∀ (env : Env) (st : RunState) (p : String) (st' : RunState),
      execCmd env st p = Except.ok st' →
      ∃ C e, (∃ resolved, resolveTemplate st p = Except.ok resolved ∧
                categoryKey (tokenize resolved) = some C) ∧
        ∀ cat, st'.store.find cat =
          if cat = C then st.store.find cat ++ [e] else st.store.find cat := by
    intro env st p st' h
    unfold execCmd at h
    cases hres : resolveTemplate st p with
    | error e => rw [hres] at h; exact absurd h (by simp)
    | ok resolved =>
        rw [hres] at h
        simp only at h
        split at h
        · exact absurd h (by simp)
        · split at h
          · exact absurd h (by simp)
          · cases hcat : categoryKey (tokenize resolved) with
            | none => rw [hcat] at h; exact absurd h (by simp)
            | some C =>
                rw [hcat] at h
                simp only [Except.ok.injEq] at h
                subst h
                exact ⟨C, _, ⟨resolved, rfl, hcat⟩, fun cat => find_append st.store C cat _⟩
  refine ⟨hcmd, ?_⟩
  intro env st s st' h cat
  obtain ⟨kw, d⟩ := s
  cases d with
  | server =>
      dsimp only [execStep] at h
      split at h
      · simp only [Except.ok.injEq] at h
        rw [← h]
      · exact absurd h (by simp)
  | cmd p =>
      obtain ⟨C, e, _, hfind⟩ := hcmd env st p st' h
      rw [hfind cat]
      by_cases hc : cat = C
      · simp [hc]
      · simp [hc]
  | assert p =>
      dsimp only [execStep] at h
      cases hres : resolveTemplate st p with
      | error e => rw [hres] at h; exact absurd h (by simp)
      | ok resolved =>
          rw [hres] at h
          dsimp only at h
          split at h
          · simp only [Except.ok.injEq] at h
            rw [← h]
          · exact absurd h (by simp)

/-- Concrete environment for witnesses: every command succeeds instantly,
prints `7`, and binds `default`. -/
def demoEnv : Env :=
  { exec := fun _ => ⟨false, 0, "7", [("default", "acct0")]⟩, serverReady := true }

/-- The run context after `account create` under `demoEnv`. -/
def demoSt1 : RunState :=
  { syms := [("default", "acct0")]
    store := [("account", [Entry.parsed (Value.vnum 7)])]
    serverRunning := false }

/-- Witness for `cmd_appends_exactly_one` on a concrete command. -/
theorem cmd_appends_exactly_one_witness :
    (∃ C e, (∃ resolved, resolveTemplate initState "account create" = Except.ok resolved ∧
              categoryKey (tokenize resolved) = some C) ∧
       ∀ cat, demoSt1.store.find cat =
         if cat = C then initState.store.find cat ++ [e] else initState.store.find cat) ∧
    (∀ cat, initState.store.find cat <+: demoSt1.store.find cat) :=
  ⟨cmd_appends_exactly_one.1 demoEnv initState "account create" demoSt1 rfl,
   cmd_appends_exactly_one.2 demoEnv initState ⟨Keyword.thenKw, Directive.cmd "account create"⟩
     demoSt1 rfl⟩

theorem data_ne_nil (n : String) (h : n ≠ "") : n.data ≠ [] := by
  intro hd
  apply h
  cases n
  exact congrArg String.mk (by simpa using hd)

theorem splitAtClose_append (a b : List Char) (h : '\x7d' ∉ a) :
    splitAtClose (a ++ '\x7d' :: b) = some (a, b) := by
  induction a with
  | nil => simp [splitAtClose]
  | cons c cs ih =>
      have hc : ¬ (c = '\x7d') := fun hh => h (hh ▸ List.mem_cons_self c cs)
      have hcs : '\x7d' ∉ cs := fun hm => h (List.mem_cons_of_mem _ hm)
      simp [splitAtClose, hc, ih hcs]

theorem lookup_insert_self (syms : SymbolTable) (n v : String) :
    lookupSym (insertSym syms n v) n = some v := by
  simp [insertSym, lookupSym]

theorem lookup_insert_other (syms : SymbolTable) (m w n : String) (h : m ≠ n) :
    lookupSym (insertSym syms m w) n = lookupSym syms n := by
  simp [insertSym, lookupSym, h]

theorem lookup_applyDefines (syms : SymbolTable) (ds : List (String × String)) (n : String)
    (h : n ∉ ds.map Prod.fst) :
    lookupSym (applyDefines syms ds) n = lookupSym syms n := by
  induction ds generalizing syms with
  | nil => rfl
  | cons d rest ih =>
      have h1 : d.1 ≠ n := fun hh =>
        h (by rw [List.map_cons, hh]; exact List.mem_cons_self _ _)
      have h2 : n ∉ rest.map Prod.fst := fun hm =>
        h (by rw [List.map_cons]; exact List.mem_cons_of_mem _ hm)
      have hstep : applyDefines syms (d :: rest) = applyDefines (insertSym syms d.1 d.2) rest := by
        simp [applyDefines]
      rw [hstep, ih _ h2, lookup_insert_other _ _ _ _ h1]

theorem resolveTemplateAux_undefined (st : RunState) (n : String) (fuel : Nat) (b : List Char)
    (hn : lookupSym st.syms n = none) (hne : n ≠ "")
    (h1 : '\x7b' ∉ n.data) (h2 : '\x7d' ∉ n.data) :
    resolveTemplateAux st (fuel + 1) ('\x7b' :: (n.data ++ '\x7d' :: b)) =
      Except.error (HarnessError.undefinedVariable n) := by
  obtain ⟨d, ds, hd⟩ : ∃ d ds, n.data = d :: ds := by
    cases hnd : n.data with
    | nil => exact absurd hnd (data_ne_nil n hne)
    | cons d ds => exact ⟨d, ds, rfl⟩
  have hdne : d ≠ '\x7b' := by
    intro hh
    exact h1 (hd ▸ (hh ▸ List.mem_cons_self d ds))
  have hcond : ¬ (('\x7b' : Char) = '\x7b' ∧ (n.data ++ '\x7d' :: b).head? = some '\x7b') := by
    rw [hd]
    simp [hdne]
  have hv : resolveVar st.syms n.data.asString =
      Except.error (HarnessError.undefinedVariable n) := by
    have hns : n.data.asString = n := rfl
    rw [hns]
    unfold resolveVar
    rw [hn]
  rw [resolveTemplateAux]
  rw [if_neg hcond, if_pos rfl, splitAtClose_append _ _ h2]
  dsimp only
  rw [hv]

theorem resolveTemplate_undefined (st : RunState) (n : String)
    (hn : lookupSym st.syms n = none) (hne : n ≠ "")
    (h1 : '\x7b' ∉ n.data) (h2 : '\x7d' ∉ n.data) :
    resolveTemplate st ("\x7b" ++ n ++ "\x7d") =
      Except.error (HarnessError.undefinedVariable n) := by
  have hx : ("\x7b" : String).data = ['\x7b'] := rfl
  have hy : ("\x7d" : String).data = ['\x7d'] := rfl
  have hdata : ("\x7b" ++ n ++ "\x7d").data = '\x7b' :: (n.data ++ '\x7d' :: []) := by
    simp [String.data_append, hx, hy]
  unfold resolveTemplate
  rw [hdata]
  have hlen : ('\x7b' :: (n.data ++ '\x7d' :: [])).length + 1 = (n.data.length + 1) + 1 + 1 := by
    simp
  rw [hlen, resolveTemplateAux_undefined st n _ _ hn hne h1 h2]

/-- C3: a name must be written before it is read — reading an unwritten name
(in particular from the empty initial Symbol Table, and through a payload
containing the braced reference) fails with an UndefinedVariable error and
never yields a default or null value; a successful read returns exactly the
stored value; after a write the name resolves to the written value and keeps
doing so under writes to other names and under command side effects that do
not redefine it. -/
theorem symbol_write_before_read (syms : SymbolTable) (n v m w : String) :
    (resolveVar [] n = Except.error (HarnessError.undefinedVariable n)) ∧
    (initState.syms = []) ∧
    (lookupSym syms n = none →
        resolveVar syms n = Except.error (HarnessError.undefinedVariable n)) ∧
    (∀ r, resolveVar syms n = Except.ok r → lookupSym syms n = some r) ∧
    (resolveVar (insertSym syms n v) n = Except.ok v) ∧
    (m ≠ n → resolveVar (insertSym syms m w) n = resolveVar syms n) ∧
    (∀ ds, n ∉ ds.map Prod.fst →
        lookupSym (applyDefines syms ds) n = lookupSym syms n) ∧
    (∀ st : RunState, st.syms = syms → lookupSym syms n = none → n ≠ "" →
        '\x7b' ∉ n.data → '\x7d' ∉ n.data →
        resolveTemplate st ("\x7b" ++ n ++ "\x7d") =
          Except.error (HarnessError.undefinedVariable n)) := by
  refine ⟨rfl, rfl, ?_, ?_, ?_, ?_, ?_, ?_⟩
  · intro h; unfold resolveVar; rw [h]
  · intro r h
    unfold resolveVar at h
    cases hl : lookupSym syms n with
    | none => rw [hl] at h; exact absurd h (by simp)
    | some u => rw [hl] at h; simp only [Except.ok.injEq] at h; rw [h]
  · unfold resolveVar; rw [lookup_insert_self]
  · intro h; unfold resolveVar; rw [lookup_insert_other _ _ _ _ h]
  · exact fun ds hds => lookup_applyDefines syms ds n hds
  · intro st hst h hne h1 h2
    exact resolveTemplate_undefined st n (hst ▸ h) hne h1 h2

/-- Witness for `symbol_write_before_read` at the fixture name `default`. -/
theorem symbol_write_before_read_witness :
    (lookupSym [] "default" = none →
        resolveVar [] "default" =
          Except.error (HarnessError.undefinedVariable "default")) ∧
    (resolveTemplate initState "\x7bdefault\x7d" =
        Except.error (HarnessError.undefinedVariable "default")) :=
  ⟨(symbol_write_before_read [] "default" "v" "m" "w").2.2.1,
   (symbol_write_before_read [] "default" "v" "m" "w").2.2.2.2.2.2.2 initState rfl rfl
     (by decide) (by decide) (by decide)⟩

theorem runSteps_append_ok (env : Env) (pre post : List Step) (st st₁ : RunState)
    (h : runSteps env st pre = (st₁, none)) :
    runSteps env st (pre ++ post) = runSteps env st₁ post := by
  induction pre generalizing st with
  | nil =>
      simp only [runSteps, Prod.mk.injEq] at h
      rw [List.nil_append, h.1]
  | cons s rest ih =>
      rw [List.cons_append]
      dsimp only [runSteps] at h ⊢
      cases hx : execStep env st s with
      | ok st' => rw [hx] at h; dsimp only at h ⊢; exact ih _ h
      | error e => rw [hx] at h; dsimp only at h; exact absurd h (by simp)

theorem runScenario_status (env : Env) (st : RunState) (sc : Scenario) :
    (runScenario env st sc).2 = Status.Passed ∨ (runScenario env st sc).2 = Status.Failed := by
  unfold runScenario
  cases h : runSteps env st sc.steps with
  | mk st' err => cases err <;> simp

theorem runScenarios_length (env : Env) (st : RunState) (scens : List Scenario) :
    ((runScenarios env st scens).2).length = scens.length := by
  induction scens generalizing st with
  | nil => simp [runScenarios]
  | cons sc rest ih => simp [runScenarios, ih]

theorem runScenarios_status_mem (env : Env) (st : RunState) (scens : List Scenario)
    (s : Status) (h : s ∈ (runScenarios env st scens).2) :
    s = Status.Passed ∨ s = Status.Failed := by
  induction scens generalizing st with
  | nil => simp [runScenarios] at h
  | cons sc rest ih =>
      simp only [runScenarios, List.mem_cons] at h
      cases h with
      | inl h => rw [h]; exact runScenario_status env st sc
      | inr h => exact ih _ h

theorem parseLines_error_shape (lines : List String) (ps : ParseState) (n : Nat)
    (e : HarnessError) (h : parseLines ps n lines = Except.error e) :
    ∃ ln, e = HarnessError.parseError ln := by
  induction lines generalizing ps n with
  | nil => exact absurd h (by simp [parseLines])
  | cons l rest ih =>
      dsimp only [parseLines] at h
      cases hc : classifyLine l <;> rw [hc] at h
      case blank => exact ih _ _ h
      case comment => exact ih _ _ h
      case featureDecl nm => exact ih _ _ h
      case scenarioDecl nm => exact ih _ _ h
      case stepLine s =>
          cases hcur : ps.current <;> rw [hcur] at h
          case none =>
              simp only [Except.error.injEq] at h
              exact ⟨n, h.symm⟩
          case some cur => exact ih _ _ h
      case invalid =>
          simp only [Except.error.injEq] at h
          exact ⟨n, h.symm⟩

theorem parseFeature_error_shape (lines : List String) (e : HarnessError)
    (h : parseFeature lines = Except.error e) : ∃ ln, e = HarnessError.parseError ln := by
  unfold parseFeature at h
  cases hp : parseLines ⟨none, [], none⟩ 1 lines with
  | error e' =>
      rw [hp] at h
      simp only [Except.error.injEq] at h
      exact h ▸ parseLines_error_shape lines _ 1 e' hp
  | ok ps =>
      rw [hp] at h
      dsimp only at h
      cases hD : (flushCurrent ps).doneScens <;> rw [hD] at h
      case nil =>
          simp only [Except.error.injEq] at h
          exact ⟨lines.length + 1, h.symm⟩
      case cons a b => exact absurd h (by simp)

/-- C4: a single failing step marks only its owning scenario Failed and skips
only that scenario's remaining steps (the outcome does not depend on the
steps after the failure); the Runner still produces an outcome for every
scenario of the feature; and the whole run aborts exactly when parsing
fails — every run-fatal error is a ParseError. -/
theorem failure_bounded_to_scenario :
    (∀ (env : Env) (st st₁ : RunState) (e : HarnessError) (pre post : List Step)
        (s : Step) (nm : String),
        runSteps env st pre = (st₁, none) → execStep env st₁ s = Except.error e →
        runScenario env st ⟨nm, pre ++ s :: post⟩ = (stopServer st₁, Status.Failed)) ∧
    (∀ (env : Env) (st : RunState) (scens : List Scenario),
        ((runScenarios env st scens).2).length = scens.length) ∧
    (∀ (env : Env) (lines : List String),
        (∃ e, runHarness env lines = Except.error e) ↔
          (∃ e, parseFeature lines = Except.error e)) ∧
    (∀ (env : Env) (lines : List String) (e : HarnessError),
        runHarness env lines = Except.error e → ∃ ln, e = HarnessError.parseError ln) := by
  refine ⟨?_, runScenarios_length, ?_, ?_⟩
  · intro env st st₁ e pre post s nm hpre hs
    unfold runScenario
    dsimp only
    rw [runSteps_append_ok env pre (s :: post) st st₁ hpre]
    dsimp only [runSteps]
    rw [hs]
  · intro env lines
    constructor
    · rintro ⟨e, he⟩
      unfold runHarness at he
      cases hp : parseFeature lines with
      | error e' => exact ⟨e', rfl⟩
      | ok f => rw [hp] at he; exact absurd he (by simp)
    · rintro ⟨e, he⟩
      refine ⟨e, ?_⟩
      unfold runHarness
      rw [he]
  · intro env lines e he
    unfold runHarness at he
    cases hp : parseFeature lines with
    | error e' =>
        rw [hp] at he
        simp only [Except.error.injEq] at he
        exact he ▸ parseFeature_error_shape lines e' hp
    | ok f => rw [hp] at he; exact absurd he (by simp)

/-- Environment under which every spawned command fails with exit code 1. -/
def failEnv : Env :=
  { exec := fun _ => ⟨false, 1, "", []⟩, serverReady := true }

/-- Witness for `failure_bounded_to_scenario`: a failing cmd step fails its
scenario immediately, and a non-matching line aborts the run with a
ParseError carrying its line number. -/
theorem failure_bounded_to_scenario_witness :
    runScenario failEnv initState
        ⟨"account", [] ++ ⟨Keyword.thenKw, Directive.cmd "account create"⟩ ::
          [⟨Keyword.thenKw, Directive.cmd "account list"⟩]⟩ =
      (stopServer initState, Status.Failed) ∧
    (∃ ln, HarnessError.parseError 1 = HarnessError.parseError ln) :=
  ⟨failure_bounded_to_scenario.1 failEnv initState initState HarnessError.execution []
      [⟨Keyword.thenKw, Directive.cmd "account list"⟩]
      ⟨Keyword.thenKw, Directive.cmd "account create"⟩ "account" rfl rfl,
   failure_bounded_to_scenario.2.2.2 failEnv ["garbage"] (HarnessError.parseError 1) rfl⟩

/-- C5: the harness exit status is zero iff every scenario ended Passed, and
non-zero iff some scenario ended Failed or Errored. -/
theorem exit_status_zero_iff_all_passed :
    (∀ (env : Env) (f : Feature),
        (exitCode (runFeature env f) = 0 ↔ ∀ s ∈ runFeature env f, s = Status.Passed) ∧
        (exitCode (runFeature env f) ≠ 0 ↔
          ∃ s ∈ runFeature env f, s = Status.Failed ∨ s = Status.Errored)) ∧
    (∀ (env : Env) (lines : List String) (c : Nat),
        runHarness env lines = Except.ok c →
        (c = 0 ↔ ∃ f, parseFeature lines = Except.ok f ∧
            ∀ s ∈ runFeature env f, s = Status.Passed)) := by
  have hall : ∀ (sts : List Status), allPassed sts = true ↔ ∀ s ∈ sts, s = Status.Passed := by
    intro sts
    unfold allPassed
    rw [List.all_eq_true]
    constructor
    · intro h s hs; exact eq_of_beq (h s hs)
    · intro h s hs; rw [h s hs]; exact beq_self_eq_true _
  have hzero : ∀ (sts : List Status), exitCode sts = 0 ↔ allPassed sts = true := by
    intro sts
    unfold exitCode
    by_cases h : allPassed sts = true
    · simp [h]
    · simp [h]
  have hmain : ∀ (env : Env) (f : Feature),
      (exitCode (runFeature env f) = 0 ↔ ∀ s ∈ runFeature env f, s = Status.Passed) ∧
      (exitCode (runFeature env f) ≠ 0 ↔
        ∃ s ∈ runFeature env f, s = Status.Failed ∨ s = Status.Errored) := by
    intro env f
    constructor
    · rw [hzero, hall]
    · rw [Ne, hzero, hall]
      constructor
      · intro h
        push_neg at h
        obtain ⟨s, hs, hne⟩ := h
        rcases runScenarios_status_mem env initState f.scenarios s hs with hP | hF
        · exact absurd hP hne
        · exact ⟨s, hs, Or.inl hF⟩
      · rintro ⟨s, hs, hF | hE⟩
        · intro h; rw [h s hs] at hF; exact absurd hF (by simp)
        · intro h; rw [h s hs] at hE; exact absurd hE (by simp)
  refine ⟨hmain, ?_⟩
  intro env lines c hc
  unfold runHarness at hc
  cases hp : parseFeature lines with
  | error e => rw [hp] at hc; exact absurd hc (by simp)
  | ok f =>
      rw [hp] at hc
      simp only [Except.ok.injEq] at hc
      constructor
      · intro h0
        exact ⟨f, rfl, ((hmain env f).1).mp (by rw [hc, h0])⟩
      · rintro ⟨f', hf', hforall⟩
        simp only [Except.ok.injEq] at hf'
        rw [← hc]
        exact ((hmain env f).1).mpr (hf' ▸ hforall)

/-- Witness for `exit_status_zero_iff_all_passed` on a concretely parsed and
run feature. -/
theorem exit_status_zero_iff_all_passed_witness :
    0 = 0 ↔ ∃ f, parseFeature ["Feature: demo", "Scenario: s", "Then cmd: \"init\""] =
        Except.ok f ∧
      ∀ s ∈ runFeature demoEnv f, s = Status.Passed :=
  exit_status_zero_iff_all_passed.2 demoEnv
    ["Feature: demo", "Scenario: s", "Then cmd: \"init\""] 0 rfl

theorem dropWhile_append_of_forall {α : Type} (p : α → Bool) (a b : List α)
    (h : ∀ x ∈ a, p x = true) : (a ++ b).dropWhile p = b.dropWhile p := by
  induction a with
  | nil => rfl
  | cons c cs ih =>
      have hc := h c (List.mem_cons_self c cs)
      have hcs : ∀ x ∈ cs, p x = true := fun x hx => h x (List.mem_cons_of_mem _ hx)
      rw [List.cons_append]
      simp only [List.dropWhile, hc]
      exact ih hcs

theorem extractQuoted_balance (pre mid : List Char) (h : '"' ∉ pre) :
    extractQuoted (pre ++ '"' :: (mid ++ ['"'])) = some mid := by
  unfold extractQuoted
  have hpre : ∀ x ∈ pre, (fun c => decide (c ≠ '"')) x = true := by
    intro x hx
    exact decide_eq_true (fun hh : x = '"' => h (hh ▸ hx))
  rw [dropWhile_append_of_forall _ pre _ hpre]
  simp only [List.dropWhile, decide_not, ne_eq, decide_True, Bool.not_true]
  rw [List.reverse_append, List.reverse_cons]
  simp only [List.dropWhile, decide_not, ne_eq, decide_True, Bool.not_true,
    List.nil_append, List.reverse_reverse]
  simp

/-- C6: the Feature Parser accepts a quoted payload containing embedded
literal double quotes by tracking quote balance — everything between the
first and last quote is the payload, whatever quotes it embeds — shown both
in general and on the fixture's account-import line with a nested-quoted
mnemonic; and the Command Executor tokenizes a resolved payload so that a
quoted multi-word mnemonic stays one single token. -/
theorem quoted_payload_nested_quotes :
    (∀ pre mid : List Char, '"' ∉ pre →
        extractQuoted (pre ++ '"' :: (mid ++ ['"'])) = some mid) ∧
    (classifyLine "      Then cmd: \"account import \"fiber tube acid imitate frost coffee choose crowd grass topple donkey submit\"\"" =
        LineKind.stepLine ⟨Keyword.thenKw, Directive.cmd
          "account import \"fiber tube acid imitate frost coffee choose crowd grass topple donkey submit\""⟩) ∧
    (tokenize "account import \"fiber tube acid imitate frost coffee choose crowd grass topple donkey submit\"" =
        ["account", "import",
         "fiber tube acid imitate frost coffee choose crowd grass topple donkey submit"]) :=
  ⟨extractQuoted_balance, rfl, rfl⟩

/-- Witness for `quoted_payload_nested_quotes` at a concrete prefix and
payload containing an embedded quote. -/
theorem quoted_payload_nested_quotes_witness :
    ('"' ∉ ['c', 'm', 'd', ':', ' ']) ∧
    extractQuoted (['c', 'm', 'd', ':', ' '] ++ '"' :: (['a', '"', 'b'] ++ ['"'])) =
      some ['a', '"', 'b'] :=
  ⟨by decide, quoted_payload_nested_quotes.1 ['c', 'm', 'd', ':', ' '] ['a', '"', 'b'] (by decide)⟩

/-- The success part of an Except result. -/
def okOf {ε α : Type} : Except ε α → Option α
  | Except.ok a => some a
  | Except.error _ => none

theorem parseLines_ok_no_invalid (lines : List String) (ps : ParseState) (n : Nat)
    (ps' : ParseState) (h : parseLines ps n lines = Except.ok ps') :
    ∀ l ∈ lines, classifyLine l ≠ LineKind.invalid := by
  induction lines generalizing ps n with
  | nil => intro l hl; exact absurd hl (by simp)
  | cons x rest ih =>
      intro l hl
      rcases List.mem_cons.mp hl with rfl | hmem
      · intro hbad
        dsimp only [parseLines] at h
        rw [hbad] at h
        exact absurd h (by simp)
      · dsimp only [parseLines] at h
        cases hc : classifyLine x <;> rw [hc] at h
        case blank => exact ih _ _ h l hmem
        case comment => exact ih _ _ h l hmem
        case featureDecl nm => exact ih _ _ h l hmem
        case scenarioDecl nm => exact ih _ _ h l hmem
        case stepLine s =>
            cases hcur : ps.current with
            | none => rw [hcur] at h; exact absurd h (by simp)
            | some cur =>
                obtain ⟨nm, steps⟩ := cur
                rw [hcur] at h
                exact ih _ _ h l hmem
        case invalid => exact absurd h (by simp)

theorem parseLines_ok_lineno (lines : List String) (ps : ParseState) (n m : Nat) :
    okOf (parseLines ps n lines) = okOf (parseLines ps m lines) := by
  induction lines generalizing ps n m with
  | nil => rfl
  | cons x rest ih =>
      dsimp only [parseLines]
      cases hc : classifyLine x
      case blank => exact ih _ _ _
      case comment => exact ih _ _ _
      case featureDecl nm => exact ih _ _ _
      case scenarioDecl nm => exact ih _ _ _
      case stepLine s =>
          cases hcur : ps.current with
          | none => rfl
          | some cur => obtain ⟨nm, steps⟩ := cur; exact ih _ _ _
      case invalid => rfl

theorem parseLines_cons_skip (ps : ParseState) (n : Nat) (c : String) (rest : List String)
    (h : classifyLine c = LineKind.comment ∨ classifyLine c = LineKind.blank) :
    parseLines ps n (c :: rest) = parseLines ps (n + 1) rest := by
  rcases h with h | h <;> (dsimp only [parseLines]; rw [h])

theorem parseLines_skip_insert (c : String)
    (hc : classifyLine c = LineKind.comment ∨ classifyLine c = LineKind.blank)
    (lines : List String) (k : Nat) (ps : ParseState) (n : Nat) :
    okOf (parseLines ps n (lines.take k ++ c :: lines.drop k)) =
      okOf (parseLines ps n lines) := by
  induction lines generalizing k ps n with
  | nil =>
      simp only [List.take_nil, List.drop_nil, List.nil_append]
      rw [parseLines_cons_skip ps n c [] hc]
      rfl
  | cons x rest ih =>
      cases k with
      | zero =>
          simp only [List.take_zero, List.drop_zero, List.nil_append]
          rw [parseLines_cons_skip ps n c (x :: rest) hc]
          exact parseLines_ok_lineno _ _ _ _
      | succ k' =>
          simp only [List.take_succ_cons, List.drop_succ_cons, List.cons_append]
          dsimp only [parseLines]
          cases hcx : classifyLine x
          case blank => exact ih _ _ _
          case comment => exact ih _ _ _
          case featureDecl nm => exact ih _ _ _
          case scenarioDecl nm => exact ih _ _ _
          case stepLine s =>
              cases hcur : ps.current with
              | none => rfl
              | some cur => obtain ⟨nm, steps⟩ := cur; exact ih _ _ _
          case invalid => rfl

theorem parseFeature_insert (lines : List String) (k : Nat) (c : String) (f : Feature)
    (hc : classifyLine c = LineKind.comment ∨ classifyLine c = LineKind.blank)
    (h : parseFeature lines = Except.ok f) :
    parseFeature (lines.take k ++ c :: lines.drop k) = Except.ok f := by
  unfold parseFeature at h ⊢
  cases hp : parseLines ⟨none, [], none⟩ 1 lines with
  | error e => rw [hp] at h; exact absurd h (by simp)
  | ok ps =>
      rw [hp] at h
      dsimp only at h
      have hins := parseLines_skip_insert c hc lines k ⟨none, [], none⟩ 1
      rw [hp] at hins
      cases hq : parseLines ⟨none, [], none⟩ 1 (lines.take k ++ c :: lines.drop k) with
      | error e => rw [hq] at hins; exact absurd hins (by simp [okOf])
      | ok ps' =>
          rw [hq] at hins
          simp only [okOf, Option.some.injEq] at hins
          rw [hins]
          dsimp only
          cases hD : (flushCurrent ps).doneScens with
          | nil => rw [hD] at h; exact absurd h (by simp)
          | cons a b => rw [hD] at h; exact h

/-- C7: a feature parses successfully only if it has no non-matching
non-blank line and at least one scenario — a non-matching line is reported as
a ParseError with its line number (shown concretely at line 3), and an empty
feature is a fatal parse error; comment and blank lines are ignored for
execution: inserting one anywhere leaves a successful parse's Feature tree
unchanged and never causes a failure. -/
theorem parser_rejects_nonmatching_lines :
    (∀ (lines : List String) (f : Feature), parseFeature lines = Except.ok f →
        (∀ l ∈ lines, classifyLine l ≠ LineKind.invalid) ∧ f.scenarios ≠ []) ∧
    (∀ (lines : List String) (k : Nat) (c : String) (f : Feature),
        (classifyLine c = LineKind.comment ∨ classifyLine c = LineKind.blank) →
        parseFeature lines = Except.ok f →
        parseFeature (lines.take k ++ c :: lines.drop k) = Except.ok f) ∧
    (parseFeature ["Feature: F", "Scenario: S", "garbage"] =
        Except.error (HarnessError.parseError 3)) ∧
    (parseFeature ["Feature: F"] = Except.error (HarnessError.parseError 2)) := by
  refine ⟨?_, ?_, rfl, rfl⟩
  · intro lines f h
    unfold parseFeature at h
    cases hp : parseLines ⟨none, [], none⟩ 1 lines with
    | error e => rw [hp] at h; exact absurd h (by simp)
    | ok ps =>
        refine ⟨parseLines_ok_no_invalid lines _ 1 ps hp, ?_⟩
        rw [hp] at h
        dsimp only at h
        cases hD : (flushCurrent ps).doneScens with
        | nil => rw [hD] at h; exact absurd h (by simp)
        | cons a b =>
            rw [hD] at h
            simp only [Except.ok.injEq] at h
            rw [← h]
            simp
  · intro lines k c f hc h
    exact parseFeature_insert lines k c f hc h

/-- Witness for `parser_rejects_nonmatching_lines`: a concrete successful
parse, and the same parse with a comment line inserted in the middle. -/
theorem parser_rejects_nonmatching_lines_witness :
    ((∀ l ∈ ["Feature: demo", "Scenario: s", "Then cmd: \"init\""],
        classifyLine l ≠ LineKind.invalid) ∧
      (Feature.mk "demo" [⟨"s", [⟨Keyword.thenKw, Directive.cmd "init"⟩]⟩]).scenarios ≠ []) ∧
    parseFeature (["Feature: demo", "Scenario: s", "Then cmd: \"init\""].take 2 ++
        "# comment" :: ["Feature: demo", "Scenario: s", "Then cmd: \"init\""].drop 2) =
      Except.ok (Feature.mk "demo" [⟨"s", [⟨Keyword.thenKw, Directive.cmd "init"⟩]⟩]) :=
  ⟨parser_rejects_nonmatching_lines.1 ["Feature: demo", "Scenario: s", "Then cmd: \"init\""]
      (Feature.mk "demo" [⟨"s", [⟨Keyword.thenKw, Directive.cmd "init"⟩]⟩]) rfl,
   parser_rejects_nonmatching_lines.2.1 ["Feature: demo", "Scenario: s", "Then cmd: \"init\""]
      2 "# comment" (Feature.mk "demo" [⟨"s", [⟨Keyword.thenKw, Directive.cmd "init"⟩]⟩])
      (Or.inl rfl) rfl⟩

theorem runScenario_server_off (env : Env) (st : RunState) (sc : Scenario) :
    ((runScenario env st sc).1).serverRunning = false := by
  unfold runScenario
  cases h : runSteps env st sc.steps with
  | mk st' err => cases err <;> simp [stopServer]

/-- C8: the background server is never left running — after any scenario
(and after any non-empty run) the final context has no live server, on every
exit path including failures; the Runner passes the server step only when
the readiness signal is observed within the bounded wait, and when that wait
times out the step fails with a Timeout and the scenario's remaining steps
are skipped (the result does not depend on them). -/
theorem server_scoped_release :
    (∀ (env : Env) (st : RunState) (sc : Scenario),
        ((runScenario env st sc).1).serverRunning = false) ∧
    (∀ (env : Env) (st : RunState) (scens : List Scenario), scens ≠ [] →
        ((runScenarios env st scens).1).serverRunning = false) ∧
    (∀ (env : Env) (st : RunState) (kw : Keyword), env.serverReady = true →
        execStep env st ⟨kw, Directive.server⟩ =
          Except.ok { st with serverRunning := true }) ∧
    (∀ (env : Env) (st : RunState) (kw : Keyword) (rest : List Step),
        env.serverReady = false →
        runSteps env st (⟨kw, Directive.server⟩ :: rest) =
          (st, some HarnessError.timeout)) := by
  refine ⟨runScenario_server_off, ?_, ?_, ?_⟩
  · intro env st scens h
    induction scens generalizing st with
    | nil => exact absurd rfl h
    | cons sc rest ih =>
        dsimp only [runScenarios]
        cases hr : rest with
        | nil => dsimp only [runScenarios]; exact runScenario_server_off env st sc
        | cons b bs => exact hr ▸ ih _ (by simp [hr])
  · intro env st kw h
    simp [execStep, h]
  · intro env st kw rest h
    simp [runSteps, execStep, h]

/-- Environment whose server readiness wait times out. -/
def notReadyEnv : Env :=
  { exec := fun _ => ⟨false, 0, "", []⟩, serverReady := false }

/-- Witness for `server_scoped_release` at concrete environments. -/
theorem server_scoped_release_witness :
    ((runScenarios demoEnv initState
        [⟨"account", [⟨Keyword.givenKw, Directive.server⟩]⟩]).1).serverRunning = false ∧
    execStep demoEnv initState ⟨Keyword.givenKw, Directive.server⟩ =
      Except.ok { initState with serverRunning := true } ∧
    runSteps notReadyEnv initState
        (⟨Keyword.givenKw, Directive.server⟩ ::
          [⟨Keyword.thenKw, Directive.cmd "account list"⟩]) =
      (initState, some HarnessError.timeout) :=
  ⟨server_scoped_release.2.1 demoEnv initState
      [⟨"account", [⟨Keyword.givenKw, Directive.server⟩]⟩] (by simp),
   server_scoped_release.2.2.1 demoEnv initState Keyword.givenKw rfl,
   server_scoped_release.2.2.2 notReadyEnv initState Keyword.givenKw
      [⟨Keyword.thenKw, Directive.cmd "account list"⟩] rfl⟩

/-- C9: the Feature Parser is deterministic — it is a function of the text,
so two parses of the same lines yield structurally identical Feature
trees. -/
theorem parser_deterministic (lines : List String) (f₁ f₂ : Feature)
    (h₁ : parseFeature lines = Except.ok f₁)
    (h₂ : parseFeature lines = Except.ok f₂) : f₁ = f₂ := by
  rw [h₁] at h₂
  injection h₂

/-- Witness for `parser_deterministic` on concretely parsed lines. -/
theorem parser_deterministic_witness :
    (Feature.mk "demo" [⟨"s", [⟨Keyword.thenKw, Directive.cmd "init"⟩]⟩]) =
      (Feature.mk "demo" [⟨"s", [⟨Keyword.thenKw, Directive.cmd "init"⟩]⟩]) :=
  parser_deterministic ["Feature: demo", "Scenario: s", "Then cmd: \"init\""]
    (Feature.mk "demo" [⟨"s", [⟨Keyword.thenKw, Directive.cmd "init"⟩]⟩])
    (Feature.mk "demo" [⟨"s", [⟨Keyword.thenKw, Directive.cmd "init"⟩]⟩]) rfl rfl

end Harness

namespace Dashboard

/-- Embedded from `src/@core/layouts/types` as used by the component: the
nav section title item; `auth` is optional, so an absent field models the
JavaScript undefined. -/
structure NavSectionTitle where
  auth : Option Bool

/-- The slice of the auth context the component consumes: whether
`auth.accounts` is truthy. -/
structure AuthState where
  accountsTruthy : Bool

/-- Embedded from `CanViewNavSectionTitle.tsx` lines 18-30: render the
children when `auth.accounts` is truthy or when a navTitle is provided whose
`auth` field is strictly equal to `false`; otherwise return null. -/
def canViewNavSectionTitle {α : Type} (auth : AuthState)
    (navTitle : Option NavSectionTitle) (children : α) : Option α :=
  if auth.accountsTruthy || (match navTitle with
      | some t => t.auth == some false
      | none => false) then
    some children
  else none

/-- C10: the component renders its children exactly when `auth.accounts` is
truthy or a provided navTitle has `auth === false`; in every other case it
renders nothing (null). -/
theorem canView_renders_iff {α : Type} (auth : AuthState)
    (nt : Option NavSectionTitle) (ch : α) :
    (canViewNavSectionTitle auth nt ch = some ch ↔
      (auth.accountsTruthy = true ∨ ∃ t, nt = some t ∧ t.auth = some false)) ∧
    (canViewNavSectionTitle auth nt ch = none ↔
      ¬ (auth.accountsTruthy = true ∨ ∃ t, nt = some t ∧ t.auth = some false)) := by
  cases nt with
  | none =>
      unfold canViewNavSectionTitle
      by_cases h : auth.accountsTruthy = true
      · simp [h]
      · have hb : auth.accountsTruthy = false := Bool.not_eq_true _ ▸ h
        simp [hb]
  | some t =>
      unfold canViewNavSectionTitle
      by_cases h : auth.accountsTruthy = true
      · simp [h]
      · have hb : auth.accountsTruthy = false := Bool.not_eq_true _ ▸ h
        by_cases ha : t.auth = some false
        · simp [hb, ha]
        · simp [hb, ha]

end Dashboard
